import Mathlib

/-!
Verification of the mafic node-selection, filter and reconciliation core.

This file shallowly embeds the parts of the `mafic` Python library that the
specification talks about: the node registry data model (`src/mafic/node.py`,
`src/mafic/stats.py`, `src/mafic/region.py`), the selection strategies
(`src/mafic/strategy.py`), the pool's `get_node` (`src/mafic/pool.py`), the
`Filter` merge operators (`src/mafic/filter.py`), the player's mutating calls
(`src/mafic/player.py`) and the player-list reconciliation
(`Node.sync_players` in `src/mafic/node.py`).

Conventions used throughout:
  * Python `int` values become `Nat` (ids, counts) or `Int` where needed.
  * Python `float` values become `ℚ` when they are only stored and compared,
    and are cast into `ℝ` where the code does real arithmetic (the weight
    formula uses non-integer exponents, so its value lives in `ℝ`).
  * Python `None` becomes `Option.none`; raised exceptions become the error
    branch of `Except`.
  * `random.choice` is modelled by an explicit oracle function passed in as a
    parameter; which element the oracle picks is left abstract, so theorems
    hold for every possible random outcome.
-/

set_option maxHeartbeats 1000000

namespace Mafic

/-- Embedding of `mafic.region.VoiceRegion` (src/mafic/region.py): a plain
Python `Enum` whose members carry string values such as "oregon".  It is not a
`str` mix-in and defines no custom equality. -/
inductive VoiceRegion
  | oregon | montreal | southafrica | japan | dubai | santa_clara | finland
  | madrid | st_pete | india | seattle | russia | sydney | hongkong | milan
  | newark | us_central | us_west | santiago | stockholm | buenos_aires
  | us_south | us_east | singapore | bucharest | atlanta | brazil | rotterdam
  | frankfurt | london | south_korea | europe | amsterdam
  deriving DecidableEq

/-- The `value` of each `VoiceRegion` enum member, exactly as written in
src/mafic/region.py.  These strings are what appears in Discord
`region[number].discord.media` endpoints. -/
def VoiceRegion.value : VoiceRegion → String
  | .oregon => "oregon"
  | .montreal => "montreal"
  | .southafrica => "southafrica"
  | .japan => "japan"
  | .dubai => "dubai"
  | .santa_clara => "santa-clara"
  | .finland => "finland"
  | .madrid => "madrid"
  | .st_pete => "st-pete"
  | .india => "india"
  | .seattle => "seattle"
  | .russia => "russia"
  | .sydney => "sydney"
  | .hongkong => "hongkong"
  | .milan => "milan"
  | .newark => "newark"
  | .us_central => "us-central"
  | .us_west => "us-west"
  | .santiago => "santiago"
  | .stockholm => "stockholm"
  | .buenos_aires => "buenos-aires"
  | .us_south => "us-south"
  | .us_east => "us-east"
  | .singapore => "singapore"
  | .bucharest => "bucharest"
  | .atlanta => "atlanta"
  | .brazil => "brazil"
  | .rotterdam => "rotterdam"
  | .frankfurt => "frankfurt"
  | .london => "london"
  | .south_korea => "south-korea"
  | .europe => "europe"
  | .amsterdam => "amsterdam"

/-- Python equality between a `VoiceRegion` enum member and a `str`.  Because
`VoiceRegion` is a plain `Enum` (not a `str` mix-in) and does not override
`__eq__`, comparing a member against a string in Python always yields `False`,
regardless of the member's `value`.  This is the comparison performed
element-wise by `voice_region in node.regions` inside `location_strategy`
(src/mafic/strategy.py line 112), where `voice_region` is the string captured
by the regex and `node.regions` is a `list[VoiceRegion]` built by
`_wrap_regions` (src/mafic/node.py lines 70-106). -/
def VoiceRegion.pyEqStr (_ : VoiceRegion) (_ : String) : Bool := false

/-- Embedding of `mafic.stats.CPUStats` (src/mafic/stats.py lines 20-38). -/
structure CPUStats where
  cores : ℚ
  system_load : ℚ
  lavalink_load : ℚ
  deriving DecidableEq

/-- Embedding of `mafic.stats.MemoryStats` (src/mafic/stats.py lines 41-67). -/
structure MemoryStats where
  free : ℚ
  used : ℚ
  allocated : ℚ
  reservable : ℚ
  deriving DecidableEq

/-- Embedding of `mafic.stats.FrameStats` (src/mafic/stats.py lines 70-93). -/
structure FrameStats where
  sent : ℚ
  nulled : ℚ
  deficit : ℚ
  deriving DecidableEq

/-- Embedding of `mafic.stats.NodeStats` (src/mafic/stats.py lines 96-137).
The `uptime` timedelta is kept as a plain number of seconds. -/
structure NodeStats where
  player_count : ℚ
  playing_player_count : ℚ
  uptime : ℚ
  memory : MemoryStats
  cpu : CPUStats
  frame_stats : Option FrameStats
  deriving DecidableEq

/-- Embedding of the selection-relevant state of `mafic.node.Node`
(src/mafic/node.py): its unique label, the optional shard restriction
(`shard_ids`), the optional region configuration (`regions`, a list of
`VoiceRegion` members as produced by `_wrap_regions`), and the last received
stats payload (`_stats`, `None` until a stats message arrives). -/
structure Node where
  label : String
  shard_ids : Option (List Nat)
  regions : Option (List VoiceRegion)
  stats : Option NodeStats
  deriving DecidableEq

/-- Embedding of the `Node.weight` property (src/mafic/node.py lines 278-357).
If `_stats is None` the fixed sentinel `6.63e34` is returned; otherwise the
weight is the playing-player count plus a cpu term, two frame terms (zero when
frame stats are absent) and a memory term.  The arithmetic is over `ℝ` since
the exponents are not integers. -/
noncomputable def Node.weight (node : Node) : ℝ :=
  match node.stats with
  | none => 6.63e34
  | some stats =>
    let players : ℝ := (stats.playing_player_count : ℝ)
    let cpu : ℝ :=
      (1.05 : ℝ) ^ ((100 : ℝ) * ((stats.cpu.system_load : ℝ) / (stats.cpu.cores : ℝ))) * 10 - 10
    let null : ℝ :=
      match stats.frame_stats with
      | none => 0
      | some fs => (1.03 : ℝ) ^ ((fs.nulled : ℝ) / 6) * 600 - 600
    let deficit : ℝ :=
      match stats.frame_stats with
      | none => 0
      | some fs => (1.03 : ℝ) ^ ((fs.deficit : ℝ) / 6) * 600 - 600
    let mem : ℝ :=
      max ((10 : ℝ) ^ ((100 : ℝ) * ((stats.memory.used : ℝ) / (stats.memory.reservable : ℝ)) - 96)) 1 - 1
    players + cpu + null + deficit + mem

/-- Embedding of the `Strategy` enum (src/mafic/strategy.py lines 27-40). -/
inductive Strategy
  | location | random | shard | usage
  deriving DecidableEq

/-- Embedding of `shard_strategy` (src/mafic/strategy.py lines 43-67): default
the shard count to 1 when unknown, compute the guild's shard id as
`(guild_id >> 22) % shard_count`, and keep the nodes whose `shard_ids` is
`None` or contains that shard id. -/
def shard_strategy (nodes : List Node) (guild_id : Nat) (shard_count : Option Nat)
    (_endpoint : Option String) : List Node :=
  let shardCount := shard_count.getD 1
  let shardId := (guild_id >>> 22) % shardCount
  nodes.filter fun node =>
    match node.shard_ids with
    | none => true
    | some ids => ids.contains shardId

/-- Character class of the region capture group of `_REGION_REGEX`: lowercase
ASCII letters and the hyphen. -/
def isLowerOrDash (c : Char) : Bool := ('a' ≤ c && c ≤ 'z') || c == '-'

/-- Character class of the digit part of `_REGION_REGEX`. -/
def isDigitChar (c : Char) : Bool := '0' ≤ c && c ≤ '9'

/-- Consume exactly `k` leading characters that all satisfy `p`, returning the
consumed chunk and the remainder, or `none` if fewer than `k` such characters
lead the input. -/
def takeSat (p : Char → Bool) : Nat → List Char → Option (List Char × List Char)
  | 0, cs => some ([], cs)
  | _ + 1, [] => none
  | k + 1, c :: cs =>
    if p c then (takeSat p k cs).map (fun pr => (c :: pr.1, pr.2)) else none

/-- Greedy bounded repetition with backtracking, as a backtracking regex engine
(Python `re`) evaluates a counted repetition of the class `p` followed by the
continuation `cont`: repetition lengths are tried from `hi` downwards, and the
first length at which both the repetition and the continuation succeed wins.
Lengths below `lo` are rejected.  Only used with `lo = 1`, so the length-0
attempt never succeeds and is folded into the base case. -/
def greedyRep (p : Char → Bool) (lo : Nat) (cont : List Char → List Char → Option α) :
    Nat → List Char → Option α
  | 0, _ => none
  | hi + 1, cs =>
    if hi + 1 < lo then none
    else
      match takeSat p (hi + 1) cs with
      | some (chunk, rest) =>
        match cont chunk rest with
        | some r => some r
        | none => greedyRep p lo cont hi cs
      | none => greedyRep p lo cont hi cs

/-- The literal tail of `_REGION_REGEX` after the digits. -/
def mediaSuffix : List Char := ".discord.media".data

/-- Matching of the regex tail (one to five digits, then the literal
".discord.media") at the head of `cs`.  Trailing characters after the literal
are allowed because `re.match` only anchors at the start. -/
def matchDigitsTail (cs : List Char) : Option Unit :=
  greedyRep isDigitChar 1
    (fun _ rest => if mediaSuffix.isPrefixOf rest then some () else none) 5 cs

/-- Matching of the region capture (one to fifteen characters of lowercase
letters or hyphen) followed by the digits-and-literal tail, at the head of
`cs`; returns the captured region group. -/
def matchRegionFrom (cs : List Char) : Option String :=
  greedyRep isLowerOrDash 1
    (fun chunk rest => (matchDigitsTail rest).map (fun _ => String.mk chunk)) 15 cs

/-- Embedding of `_REGION_REGEX.match(endpoint)` followed by
`match.group("region")` (src/mafic/strategy.py line 70): the pattern is an
optional literal "vip-", then the region capture, the digits and the literal
".discord.media".  `re.match` anchors at the start of the string only, and the
optional "vip-" group is greedy: the engine first tries to consume the
literal, and falls back to the empty alternative if the rest of the pattern
then fails. -/
def parseRegion (endpoint : String) : Option String :=
  let cs := endpoint.data
  if "vip-".data.isPrefixOf cs then
    match matchRegionFrom (cs.drop 4) with
    | some r => some r
    | none => matchRegionFrom cs
  else matchRegionFrom cs

/-- Embedding of `location_strategy` (src/mafic/strategy.py lines 73-121).
With no endpoint, a failed regex match, or an empty region capture, the input
list is returned unchanged.  Otherwise the nodes whose `regions` list contains
(under Python equality) the captured region string are kept, unless that
filtered list is empty, in which case the input is again returned unchanged.
Note that the element-wise comparison is `VoiceRegion.pyEqStr`: a `str` is
compared against `VoiceRegion` enum members. -/
def location_strategy (nodes : List Node) (_guild_id : Nat) (_shard_count : Option Nat)
    (endpoint : Option String) : List Node :=
  match endpoint with
  | none => nodes
  | some e =>
    match parseRegion e with
    | none => nodes
    | some voice_region =>
      if voice_region = "" then nodes
      else
        let regional_nodes := nodes.filter fun node =>
          match node.regions with
          | none => false
          | some rs => rs.any (fun r => r.pyEqStr voice_region)
        if regional_nodes.isEmpty then nodes else regional_nodes

/-- One step of the running-minimum loop in `usage_strategy`
(src/mafic/strategy.py lines 145-151): `lowest` starts as `None` and is
replaced whenever a strictly smaller weight is seen. -/
noncomputable def lowestStep (lowest : Option ℝ) (node : Node) : Option ℝ :=
  match lowest with
  | none => some node.weight
  | some l => if node.weight < l then some node.weight else some l

/-- Embedding of `usage_strategy` (src/mafic/strategy.py lines 124-156): find
the lowest weight over the input; if the input was empty (`lowest is None`)
return it unchanged, else keep exactly the nodes whose weight equals the
lowest. -/
noncomputable def usage_strategy (nodes : List Node) (_guild_id : Nat)
    (_shard_count : Option Nat) (_endpoint : Option String) : List Node :=
  match nodes.foldl lowestStep none with
  | none => nodes
  | some lowest => nodes.filter fun node => node.weight = lowest

/-- Embedding of `random_strategy` (src/mafic/strategy.py lines 159-176):
return a singleton of a randomly chosen node.  The random pick is modelled by
the explicit oracle `choose`. -/
def random_strategy (choose : List Node → Node) (nodes : List Node) (_guild_id : Nat)
    (_shard_count : Option Nat) (_endpoint : Option String) : List Node :=
  [choose nodes]

/-- Embedding of `call_strategy` (src/mafic/strategy.py lines 180-213). -/
noncomputable def call_strategy (choose : List Node → Node) (strategy : Strategy)
    (nodes : List Node) (guild_id : Nat) (shard_count : Option Nat)
    (endpoint : Option String) : List Node :=
  match strategy with
  | .location => location_strategy nodes guild_id shard_count endpoint
  | .random => random_strategy choose nodes guild_id shard_count endpoint
  | .shard => shard_strategy nodes guild_id shard_count endpoint
  | .usage => usage_strategy nodes guild_id shard_count endpoint

/-- A custom strategy callable, as in the `StrategyCallable` type alias
(src/mafic/strategy.py lines 14-16). -/
def StrategyCallable : Type := List Node → Nat → Option Nat → Option String → List Node

/-- An entry of a `StrategyList` (src/mafic/pool.py lines 34-38): either a
built-in `Strategy` member or a custom callable. -/
def StrategyItem : Type := Strategy ⊕ StrategyCallable

/-- Application of a single `StrategyList` entry, as done in the body of
`NodePool.get_node` (src/mafic/pool.py lines 330-338): enum members go through
`call_strategy`, callables are invoked directly. -/
noncomputable def applyStrategyItem (choose : List Node → Node) (item : StrategyItem)
    (nodes : List Node) (guild_id : Nat) (shard_count : Option Nat)
    (endpoint : Option String) : List Node :=
  match item with
  | .inl strategy => call_strategy choose strategy nodes guild_id shard_count endpoint
  | .inr f => f nodes guild_id shard_count endpoint

/-- The error raised when a strategy empties the candidate list
(`NoNodesAvailable`, src/mafic/errors.py). -/
inductive GetNodeError
  | noNodesAvailable
  deriving DecidableEq

/-- The default strategy list installed by `NodePool.__init__`
(src/mafic/pool.py lines 76-84). -/
def default_strategies : List StrategyItem :=
  [Sum.inl Strategy.shard, Sum.inl Strategy.location, Sum.inl Strategy.usage]

/-- Embedding of the strategy loop of `NodePool.get_node` (src/mafic/pool.py
lines 330-351).  `nodes` starts as the full list of registered nodes; each
strategy narrows it; a singleton is returned at once, an empty list raises
`NoNodesAvailable`, and when candidates remain after the whole list a random
choice (the oracle `choose`) is made among them. -/
noncomputable def get_node (choose : List Node → Node) (strategies : List StrategyItem)
    (nodes : List Node) (guild_id : Nat) (shard_count : Option Nat)
    (endpoint : Option String) : Except GetNodeError Node :=
  match strategies with
  | [] => .ok (choose nodes)
  | item :: rest =>
    match applyStrategyItem choose item nodes guild_id shard_count endpoint with
    | [n] => .ok n
    | [] => .error .noNodesAvailable
    | narrowed => get_node choose rest narrowed guild_id shard_count endpoint

/-- Modelled from the spec sentence for `get_node` (spec.md section 4.3): run
the configured strategy list in order over the full registry; after each
strategy, if exactly one candidate remains it is returned immediately, if zero
remain it fails with `NoNodesAvailable`, otherwise the narrowed set feeds the
next strategy; if candidates remain after all strategies, one is chosen
uniformly at random (the uniform choice abstracted by the oracle `choose`). -/
noncomputable def get_node_spec (choose : List Node → Node) (strategies : List StrategyItem)
    (candidates : List Node) (guild_id : Nat) (shard_count : Option Nat)
    (endpoint : Option String) : Except GetNodeError Node :=
  match strategies with
  | [] => .ok (choose candidates)
  | item :: rest =>
    let narrowed := applyStrategyItem choose item candidates guild_id shard_count endpoint
    if narrowed.length = 1 then
      .ok (narrowed.headD (choose candidates))
    else if narrowed.length = 0 then .error .noNodesAvailable
    else get_node_spec choose rest narrowed guild_id shard_count endpoint

/-- Embedding of `mafic.filter.EQBand` (src/mafic/filter.py lines 43-63). -/
structure EQBand where
  band : Int
  gain : ℚ
  deriving DecidableEq

/-- Embedding of `mafic.filter.Equalizer` (src/mafic/filter.py lines 66-129). -/
structure Equalizer where
  bands : List EQBand
  deriving DecidableEq

/-- Embedding of `mafic.filter.Karaoke` (src/mafic/filter.py lines 132-188). -/
structure Karaoke where
  level : Option ℚ
  mono_level : Option ℚ
  filter_band : Option ℚ
  filter_width : Option ℚ
  deriving DecidableEq

/-- Embedding of `mafic.filter.Timescale` (src/mafic/filter.py lines 191-232). -/
structure Timescale where
  speed : Option ℚ
  pitch : Option ℚ
  rate : Option ℚ
  deriving DecidableEq

/-- Embedding of `mafic.filter.Tremolo` (src/mafic/filter.py lines 235-276). -/
structure Tremolo where
  frequency : Option ℚ
  depth : Option ℚ
  deriving DecidableEq

/-- Embedding of `mafic.filter.Vibrato` (src/mafic/filter.py lines 279-320). -/
structure Vibrato where
  frequency : Option ℚ
  depth : Option ℚ
  deriving DecidableEq

/-- Embedding of `mafic.filter.Rotation` (src/mafic/filter.py lines 323-355). -/
structure Rotation where
  rotation_hz : Option ℚ
  deriving DecidableEq

/-- Embedding of `mafic.filter.Distortion` (src/mafic/filter.py lines 358-457). -/
structure Distortion where
  sin_offset : Option ℚ
  sin_scale : Option ℚ
  cos_offset : Option ℚ
  cos_scale : Option ℚ
  tan_offset : Option ℚ
  tan_scale : Option ℚ
  offset : Option ℚ
  scale : Option ℚ
  deriving DecidableEq

/-- Embedding of `mafic.filter.ChannelMix` (src/mafic/filter.py lines 460-514). -/
structure ChannelMix where
  left_to_left : Option ℚ
  left_to_right : Option ℚ
  right_to_left : Option ℚ
  right_to_right : Option ℚ
  deriving DecidableEq

/-- Embedding of `mafic.filter.LowPass` (src/mafic/filter.py lines 517-547). -/
structure LowPass where
  smoothing : Option ℚ
  deriving DecidableEq

/-- Embedding of `mafic.filter.Filter` (src/mafic/filter.py lines 550-643): nine
independently optional parameter groups plus an optional scalar volume.
Python's `__eq__` on `Filter` and on every component compares field by field,
which coincides with structural equality here (float NaN aside). -/
structure Filter where
  equalizer : Option Equalizer
  karaoke : Option Karaoke
  timescale : Option Timescale
  tremolo : Option Tremolo
  vibrato : Option Vibrato
  rotation : Option Rotation
  distortion : Option Distortion
  channel_mix : Option ChannelMix
  low_pass : Option LowPass
  volume : Option ℚ
  deriving DecidableEq

/-- Python `x or y` on the nine optional parameter-group fields.  The stored
objects (`Equalizer`, `Karaoke`, ...) are plain class instances defining
neither `__bool__` nor `__len__`, so a present value is always truthy:
`x or y` returns `x` exactly when `x` is not `None`.  This is `Option.or`. -/
def pyOrGroup (a b : Option α) : Option α := a.or b

/-- Python `x or y` on the `volume` field.  `volume` is a float, and `0.0` is
falsy, so `x or y` skips a present-but-zero `x` and returns `y`. -/
def pyOrVolume (a b : Option ℚ) : Option ℚ :=
  match a with
  | some v => if v = 0 then b else some v
  | none => b

/-- Embedding of `Filter.__or__` (src/mafic/filter.py lines 782-801): merge two
filters, favouring attributes from `other`, via Python `or` on each field. -/
def Filter.or (self other : Filter) : Filter where
  equalizer := pyOrGroup other.equalizer self.equalizer
  karaoke := pyOrGroup other.karaoke self.karaoke
  timescale := pyOrGroup other.timescale self.timescale
  tremolo := pyOrGroup other.tremolo self.tremolo
  vibrato := pyOrGroup other.vibrato self.vibrato
  rotation := pyOrGroup other.rotation self.rotation
  distortion := pyOrGroup other.distortion self.distortion
  channel_mix := pyOrGroup other.channel_mix self.channel_mix
  low_pass := pyOrGroup other.low_pass self.low_pass
  volume := pyOrVolume other.volume self.volume

/-- Embedding of `Filter.__and__` (src/mafic/filter.py lines 822-841): merge
two filters, favouring attributes from `self`. -/
def Filter.and (self other : Filter) : Filter where
  equalizer := pyOrGroup self.equalizer other.equalizer
  karaoke := pyOrGroup self.karaoke other.karaoke
  timescale := pyOrGroup self.timescale other.timescale
  tremolo := pyOrGroup self.tremolo other.tremolo
  vibrato := pyOrGroup self.vibrato other.vibrato
  rotation := pyOrGroup self.rotation other.rotation
  distortion := pyOrGroup self.distortion other.distortion
  channel_mix := pyOrGroup self.channel_mix other.channel_mix
  low_pass := pyOrGroup self.low_pass other.low_pass
  volume := pyOrVolume self.volume other.volume

/-- Modelled from the spec (section 2 FilterSet): per-field merge taking the
designated preferred side's value when that side has the field present, else
the other side's value. -/
def preferredMerge (preferred other : Option α) : Option α :=
  if preferred.isSome then preferred else other

/-- The empty `Filter()` with every field absent. -/
def emptyFilter : Filter :=
  ⟨none, none, none, none, none, none, none, none, none, none⟩

/-- Embedding of `reduce(or_, self._filters.values())` in
`Player._update_filters` (src/mafic/player.py line 660): left-to-right merge
of the ordered filter values with `__or__`, or `Filter()` when the map is
empty. -/
def reduceFilters (fs : List Filter) : Filter :=
  match fs with
  | [] => emptyFilter
  | f :: rest => rest.foldl Filter.or f

/-- Minimal embedding of `mafic.track.Track`: the opaque encoded id and the
reported playback position from its info payload (the only parts the claims
touch). -/
structure Track where
  id : String
  position : Nat
  deriving DecidableEq

/-- Errors raised by mutating player calls: `PlayerNotConnected`
(src/mafic/errors.py) and Python's `KeyError`, raised by `dict.pop` with a
missing key in `Player.remove_filter`. -/
inductive PlayerError
  | playerNotConnected
  | keyError (label : String)
  deriving DecidableEq

/-- Voice portion of a remote player payload (the `voice` object of the
Lavalink player state used by `Player.set_state`). -/
structure VoiceState where
  session_id : String
  endpoint : Option String
  token : String
  ping : Int
  deriving DecidableEq

/-- Remote player payload, as fetched by `Node.sync_players` from
`sessions/<id>/players` and consumed by `Player.set_state`
(src/mafic/player.py lines 102-124). -/
structure PlayerPayload where
  track : Option Track
  filters : Filter
  paused : Bool
  voice : VoiceState
  deriving DecidableEq

/-- Embedding of the mutable state of `mafic.player.Player`
(src/mafic/player.py lines 72-100): the optionally bound node, the
connectivity flag, cached voice/session data and the insertion-ordered
label-to-filter map. -/
structure Player where
  channel : Nat
  node : Option Node
  connected : Bool
  session_id : Option String
  server_state : Option (String × Option String)
  position : Nat
  ping : Int
  current : Option Track
  filters : List (String × Filter)
  paused : Bool
  deriving DecidableEq

/-- A fresh `Player(client, channel)` as built by `Player.__init__`
(src/mafic/player.py lines 72-100): unbound, disconnected, empty filter map. -/
def Player.init (channel : Nat) : Player :=
  { channel := channel, node := none, connected := false, session_id := none,
    server_state := none, position := 0, ping := -1, current := none,
    filters := [], paused := false }

/-- Embedding of `Player.set_state` (src/mafic/player.py lines 102-124):
adopt a remote payload, installing its track, a filter map holding the remote
filters under the label "RESUME", and the remote voice data; the position is
taken from the track info only when a track is present. -/
def Player.set_state (p : Player) (state : PlayerPayload) : Player :=
  { p with
    session_id := some state.voice.session_id,
    ping := state.voice.ping,
    current := state.track,
    filters := [("RESUME", state.filters)],
    paused := state.paused,
    server_state := some (state.voice.token, state.voice.endpoint),
    position := match state.track with
      | some t => t.position
      | none => p.position }

/-- Python dict assignment `m[k] = v` on an insertion-ordered association
list: replace in place when the key exists, else append. -/
def assocSet [DecidableEq β] (m : List (β × α)) (k : β) (v : α) : List (β × α) :=
  if m.any (fun kv => kv.1 = k) then
    m.map (fun kv => if kv.1 = k then (k, v) else kv)
  else m ++ [(k, v)]

/-- Arguments of `Player.update` (src/mafic/player.py lines 493-550).  The
`track` argument defaults to the `MISSING` sentinel, distinct from an
explicit `None`; hence the doubled `Option`. -/
structure UpdateArgs where
  track : Option (Option Track)
  position : Option Nat
  end_time : Option Nat
  volume : Option Nat
  pause : Option Bool
  filter : Option Filter
  deriving DecidableEq

/-- Embedding of `Player.update` (src/mafic/player.py lines 493-550): raise
`PlayerNotConnected` when no node is bound or the connectivity flag is false;
otherwise cache the given track, position and pause flag locally (the REST
side effect towards the node is elided). -/
def Player.update (p : Player) (args : UpdateArgs) : Except PlayerError Player :=
  if p.node.isNone || !p.connected then .error .playerNotConnected
  else
    let p1 := match args.track with
      | none => p
      | some t => { p with current := t }
    let p2 := match args.position with
      | none => p1
      | some pos => { p1 with position := pos }
    let p3 := match args.pause with
      | none => p2
      | some b => { p2 with paused := b }
    .ok p3

/-- Embedding of `Player.play` (src/mafic/player.py lines 552-597): a
convenience wrapper over `update`. -/
def Player.play (p : Player) (track : Track) (start_time : Option Nat)
    (end_time : Option Nat) (volume : Option Nat) (_replace : Bool)
    (pause : Option Bool) : Except PlayerError Player :=
  p.update ⟨some (some track), start_time, end_time, volume, pause, none⟩

/-- Embedding of `Player.pause` (src/mafic/player.py lines 599-617). -/
def Player.pause (p : Player) (pause : Bool) : Except PlayerError Player :=
  p.update ⟨none, none, none, none, some pause, none⟩

/-- Embedding of `Player.resume` (src/mafic/player.py lines 619-633). -/
def Player.resume (p : Player) : Except PlayerError Player :=
  p.pause false

/-- Embedding of `Player.stop` (src/mafic/player.py lines 635-648):
`update(track=None, replace=True)`. -/
def Player.stop (p : Player) : Except PlayerError Player :=
  p.update ⟨some none, none, none, none, none, none⟩

/-- Embedding of `Player.seek` (src/mafic/player.py lines 757-775). -/
def Player.seek (p : Player) (position : Nat) : Except PlayerError Player :=
  p.update ⟨none, some position, none, none, none, none⟩

/-- Embedding of `Player.set_volume` (src/mafic/player.py lines 737-755). -/
def Player.set_volume (p : Player) (volume : Nat) : Except PlayerError Player :=
  p.update ⟨none, none, none, some volume, none, none⟩

/-- Embedding of `Player._update_filters` (src/mafic/player.py lines 650-664):
send the merged filter through `update`, then optionally seek back to the
current position. -/
def Player.update_filters (p : Player) (fast_apply : Bool) : Except PlayerError Player :=
  match p.update ⟨none, none, none, none, none,
      some (reduceFilters (p.filters.map Prod.snd))⟩ with
  | .error e => .error e
  | .ok pNew => if fast_apply then pNew.seek pNew.position else .ok pNew

/-- Embedding of `Player.add_filter` (src/mafic/player.py lines 666-691): the
label is assigned in the ordered map first, then `_update_filters` runs (and
is where `PlayerNotConnected` is raised). -/
def Player.add_filter (p : Player) (filter : Filter) (label : String)
    (fast_apply : Bool) : Except PlayerError Player :=
  ({ p with filters := assocSet p.filters label filter } : Player).update_filters fast_apply

/-- Embedding of `Player.remove_filter` (src/mafic/player.py lines 693-715):
`self._filters.pop(label)` runs first and raises `KeyError` when the label is
absent, before any connectivity check; then `_update_filters` runs. -/
def Player.remove_filter (p : Player) (label : String)
    (fast_apply : Bool) : Except PlayerError Player :=
  if p.filters.any (fun kv => kv.1 = label) then
    ({ p with filters := p.filters.filter (fun kv => kv.1 ≠ label) } : Player).update_filters fast_apply
  else .error (.keyError label)

/-- Embedding of `Player.clear_filters` (src/mafic/player.py lines 717-735). -/
def Player.clear_filters (p : Player) (fast_apply : Bool) : Except PlayerError Player :=
  ({ p with filters := [] } : Player).update_filters fast_apply

/-- Python dict comprehension over key-value pairs: entries are inserted in
order, later occurrences of a key overwriting the earlier value in place.
This is the `actual_players` dict built by `Node.sync_players`
(src/mafic/node.py line 1158). -/
def dictOfPairs [DecidableEq β] (l : List (β × α)) : List (β × α) :=
  l.foldl (fun m kv => assocSet m kv.1 kv.2) []

/-- Embedding of `Node.sync_players` together with `Node._add_unknown_player`
and `Node._remove_unknown_player` (src/mafic/node.py lines 1100-1171).  Inputs
are the local guild-to-player map, the remote player list reported by the
server for the node's session, and the client's voice-channel lookup
(`guild.me.voice` and its channel, `none` when the bot has no voice state or
channel in that guild).  Rooms present remotely but unknown locally are
adopted through `Player.set_state` and registered, except that
`_add_unknown_player` returns without adding anything when the voice lookup
yields nothing; rooms known locally but absent remotely are force-disconnected
and unregistered.  The result is the new local map together with the list of
guild ids that were force-disconnected. -/
def sync_players (players : List (Nat × Player)) (remote : List (Nat × PlayerPayload))
    (voice : Nat → Option Nat) : List (Nat × Player) × List Nat :=
  let actual_players := dictOfPairs remote
  let actual_ids := actual_players.map Prod.fst
  let expected_ids := players.map Prod.fst
  let additions := (actual_players.filter (fun kv => kv.1 ∉ expected_ids)).filterMap
    (fun kv => (voice kv.1).map (fun ch => (kv.1, (Player.init ch).set_state kv.2)))
  let removals := expected_ids.filter (fun gid => gid ∉ actual_ids)
  (players.filter (fun kv => kv.1 ∈ actual_ids) ++ additions, removals)

/-- Observable events of a `Node`, in the order the bodies of `Node.connect`
and `Node._ws_listener` perform them. -/
inductive NodeEvent
  | checkVersion
  | connectWebsocket
  | scheduleReconnect
  | startListener
  | waitReady
  | syncPlayers
  | setAvailable (b : Bool)
  | raiseTimeout
  deriving DecidableEq

/-- Trace of one execution of `Node.connect` (src/mafic/node.py lines
505-596), parametrised by whether the websocket connection attempt succeeded
and whether the ready event arrived before the timeout.  On a failed websocket
attempt the code schedules a retry task and then falls through (there is no
early return in the except branch), so the listener is still started and the
ready wait still happens.  `self._available = True` is executed only after
`await self.sync_players()` has returned. -/
def connectTrace (wsOk readyOk : Bool) : List NodeEvent :=
  [NodeEvent.checkVersion, NodeEvent.connectWebsocket]
    ++ (if wsOk then [] else [NodeEvent.scheduleReconnect])
    ++ [NodeEvent.startListener, NodeEvent.waitReady]
    ++ (if readyOk then [NodeEvent.syncPlayers, NodeEvent.setAvailable true]
        else [NodeEvent.raiseTimeout])

/-- Trace of the transport-close branch of `Node._ws_listener`
(src/mafic/node.py lines 623-641): on a CLOSED frame the availability flag is
cleared first, then (after the backoff sleep) exactly one reconnect task is
scheduled and the listener returns. -/
def wsClosedTrace : List NodeEvent :=
  [NodeEvent.setAvailable false, NodeEvent.scheduleReconnect]

/-!  Helper lemmas about the Python `or` merge primitives. -/

/-- Python `or` on volumes is idempotent. -/
theorem pyOrVolume_self (a : Option ℚ) : pyOrVolume a a = a := by
  cases a with
  | none => rfl
  | some v =>
    by_cases h : v = 0 <;> simp [pyOrVolume, h]

/-- Python `or` on volumes is associative. -/
theorem pyOrVolume_assoc (a b c : Option ℚ) :
    pyOrVolume (pyOrVolume a b) c = pyOrVolume a (pyOrVolume b c) := by
  cases a with
  | none => rfl
  | some v =>
    by_cases h : v = 0 <;> simp [pyOrVolume, h]

/-- Modelled from the amended claim: the preferred side's volume is used when
it is present and nonzero, otherwise the other side's volume. -/
def preferredVolumeMerge (preferred other : Option ℚ) : Option ℚ :=
  if h : preferred.isSome then
    if preferred.get h = 0 then other else preferred
  else other

/-- The group merge of the code is the preferred-side-if-present merge of the
spec. -/
theorem pyOrGroup_eq_preferredMerge (a b : Option α) :
    pyOrGroup a b = preferredMerge a b := by
  cases a <;> rfl

/-- The volume merge of the code is the preferred-side-if-present-and-nonzero
merge of the amended spec. -/
theorem pyOrVolume_eq_preferredVolumeMerge (a b : Option ℚ) :
    pyOrVolume a b = preferredVolumeMerge a b := by
  cases a with
  | none => rfl
  | some v =>
    by_cases h : v = 0 <;> simp [pyOrVolume, preferredVolumeMerge, h]

/-- Filter with every field absent except a volume of 1. -/
def filterVolOne : Filter := { emptyFilter with volume := some 1 }

/-- Filter with every field absent except a volume of 0. -/
def filterVolZero : Filter := { emptyFilter with volume := some 0 }

/-- C3 counterexample: merging with `|` prefers the right side, and
`filterVolZero` has its volume field present (set to `0.0`), yet the merge
does not take the preferred side's value: Python `or` skips the falsy `0.0`
and keeps the other side's `1.0`. -/
theorem filter_or_volume_zero_not_preferred :
    (filterVolZero.volume).isSome = true ∧
    (filterVolOne.or filterVolZero).volume ≠ filterVolZero.volume := by
  constructor
  · rfl
  · simp [Filter.or, filterVolOne, filterVolZero, pyOrVolume, emptyFilter]

/-- C3 (amended): merging two FilterSets yields, for each of the nine optional
parameter groups, the designated preferred side's value whenever present and
otherwise the other side's value; the volume field instead takes the preferred
side's value only when it is present and nonzero, else the other side's value.
For `A | B` the preferred side is `B`, for `A & B` it is `A`. -/
theorem filter_merge_prefers_present_fields :
    ∀ A B : Filter,
      A.or B =
        { equalizer := preferredMerge B.equalizer A.equalizer,
          karaoke := preferredMerge B.karaoke A.karaoke,
          timescale := preferredMerge B.timescale A.timescale,
          tremolo := preferredMerge B.tremolo A.tremolo,
          vibrato := preferredMerge B.vibrato A.vibrato,
          rotation := preferredMerge B.rotation A.rotation,
          distortion := preferredMerge B.distortion A.distortion,
          channel_mix := preferredMerge B.channel_mix A.channel_mix,
          low_pass := preferredMerge B.low_pass A.low_pass,
          volume := preferredVolumeMerge B.volume A.volume } ∧
      A.and B =
        { equalizer := preferredMerge A.equalizer B.equalizer,
          karaoke := preferredMerge A.karaoke B.karaoke,
          timescale := preferredMerge A.timescale B.timescale,
          tremolo := preferredMerge A.tremolo B.tremolo,
          vibrato := preferredMerge A.vibrato B.vibrato,
          rotation := preferredMerge A.rotation B.rotation,
          distortion := preferredMerge A.distortion B.distortion,
          channel_mix := preferredMerge A.channel_mix B.channel_mix,
          low_pass := preferredMerge A.low_pass B.low_pass,
          volume := preferredVolumeMerge A.volume B.volume } := by
  intro A B
  constructor <;>
    simp [Filter.or, Filter.and, pyOrGroup_eq_preferredMerge,
      pyOrVolume_eq_preferredVolumeMerge]

/-- C4: the FilterSet merge operator with right preference is idempotent and
associative: `A | A = A` and `(A | B) | C = A | (B | C)`.  Equality is the
field-wise equality of `Filter.__eq__`, which is structural equality here. -/
theorem filter_merge_idempotent_assoc :
    (∀ A : Filter, A.or A = A) ∧
    (∀ A B C : Filter, (A.or B).or C = A.or (B.or C)) := by
  constructor
  · intro A
    cases A
    simp [Filter.or, pyOrGroup, Option.or_self, pyOrVolume_self]
  · intro A B C
    cases A; cases B; cases C
    simp [Filter.or, pyOrGroup, Option.or_assoc, pyOrVolume_assoc]

/-- C5: the shard strategy keeps exactly the nodes whose shard-id set is
absent or contains `(guild_id >> 22) mod n`, where `n` is the shard count
defaulting to 1 when unknown, and preserves their order (the result is a
sublist of the input).  The positivity hypothesis reflects that Python `%`
with a zero modulus would raise rather than select. -/
theorem shard_strategy_characterization :
    ∀ (nodes : List Node) (guild_id : Nat) (shard_count : Option Nat)
      (endpoint : Option String),
      (∀ m, shard_count = some m → 0 < m) →
      (shard_strategy nodes guild_id shard_count endpoint).Sublist nodes ∧
      ∀ n, n ∈ shard_strategy nodes guild_id shard_count endpoint ↔
        n ∈ nodes ∧ (n.shard_ids = none ∨
          ∃ ids, n.shard_ids = some ids ∧
            (guild_id >>> 22) % shard_count.getD 1 ∈ ids) := by
  intro nodes gid sc ep _
  refine ⟨List.filter_sublist _, ?_⟩
  intro n
  simp only [shard_strategy, List.mem_filter]
  constructor
  · rintro ⟨hn, hp⟩
    refine ⟨hn, ?_⟩
    cases h : n.shard_ids with
    | none => exact Or.inl rfl
    | some ids =>
      rw [h] at hp
      exact Or.inr ⟨ids, rfl, by simpa using hp⟩
  · rintro ⟨hn, h | ⟨ids, h, hmem⟩⟩ <;> refine ⟨hn, ?_⟩ <;> simp [h]
    exact hmem

/-- Node with a shard restriction to shard 0. -/
def nodeShardZero : Node :=
  { label := "shard-zero", shard_ids := some [0], regions := none, stats := none }

/-- Witness for the shard strategy characterization at a concrete input. -/
theorem shard_strategy_characterization_witness :
    (∀ m, (some 2 : Option Nat) = some m → 0 < m) ∧
    ((shard_strategy [nodeShardZero] 0 (some 2) none).Sublist [nodeShardZero] ∧
      ∀ n, n ∈ shard_strategy [nodeShardZero] 0 (some 2) none ↔
        n ∈ [nodeShardZero] ∧ (n.shard_ids = none ∨
          ∃ ids, n.shard_ids = some ids ∧
            (0 >>> 22) % (some 2 : Option Nat).getD 1 ∈ ids)) :=
  ⟨fun m hm => by simp at hm; omega,
    shard_strategy_characterization [nodeShardZero] 0 (some 2) none
      (fun m hm => by simp at hm; omega)⟩

/-- C9: in every execution of `connect`, the availability flag is set to true
only after the player-list reconciliation (`sync_players`) has finished, and a
transport close clears the flag before any reconnect attempt is scheduled. -/
theorem available_only_after_sync :
    (∀ wsOk readyOk : Bool,
      NodeEvent.setAvailable true ∈ connectTrace wsOk readyOk →
        NodeEvent.syncPlayers ∈ connectTrace wsOk readyOk ∧
        (connectTrace wsOk readyOk).indexOf NodeEvent.syncPlayers <
          (connectTrace wsOk readyOk).indexOf (NodeEvent.setAvailable true)) ∧
    (NodeEvent.setAvailable false ∈ wsClosedTrace ∧
      NodeEvent.scheduleReconnect ∈ wsClosedTrace ∧
      wsClosedTrace.indexOf (NodeEvent.setAvailable false) <
        wsClosedTrace.indexOf NodeEvent.scheduleReconnect) := by
  constructor
  · intro wsOk readyOk
    cases wsOk <;> cases readyOk <;> decide
  · decide

/-- Witness for the availability ordering at a concrete successful connect. -/
theorem available_only_after_sync_witness :
    NodeEvent.setAvailable true ∈ connectTrace true true ∧
    (connectTrace true true).indexOf NodeEvent.syncPlayers <
      (connectTrace true true).indexOf (NodeEvent.setAvailable true) :=
  ⟨by decide, (available_only_after_sync.1 true true (by decide)).2⟩

/-- The running-minimum step applied to a known value is `min`. -/
theorem lowestStep_some (a : ℝ) (n : Node) :
    lowestStep (some a) n = some (min a n.weight) := by
  simp only [lowestStep]
  by_cases h : n.weight < a
  · simp [h, min_eq_right (le_of_lt h)]
  · simp [h, min_eq_left (not_lt.mp h)]

/-- The `usage_strategy` loop over a seeded accumulator computes a fold of
`min` over the node weights. -/
theorem foldl_lowestStep_some (a : ℝ) (l : List Node) :
    l.foldl lowestStep (some a) =
      some (l.foldl (fun acc n => min acc n.weight) a) := by
  induction l generalizing a with
  | nil => rfl
  | cons n t ih =>
    simp only [List.foldl_cons, lowestStep_some]
    exact ih (min a n.weight)

/-- The min-fold is bounded by its seed. -/
theorem minWeightFold_le_init (a : ℝ) (l : List Node) :
    l.foldl (fun acc n => min acc n.weight) a ≤ a := by
  induction l generalizing a with
  | nil => simp
  | cons n t ih =>
    simp only [List.foldl_cons]
    exact le_trans (ih (min a n.weight)) (min_le_left _ _)

/-- The min-fold is bounded by every member weight. -/
theorem minWeightFold_le_mem (a : ℝ) (l : List Node) :
    ∀ n ∈ l, l.foldl (fun acc m => min acc m.weight) a ≤ n.weight := by
  induction l generalizing a with
  | nil => simp
  | cons hd t ih =>
    intro n hn
    simp only [List.foldl_cons]
    rcases List.mem_cons.mp hn with h | h
    · subst h
      exact le_trans (minWeightFold_le_init _ _) (min_le_right _ _)
    · exact ih (min a hd.weight) n h

/-- The min-fold value is the seed or some member weight. -/
theorem minWeightFold_attained (a : ℝ) (l : List Node) :
    l.foldl (fun acc m => min acc m.weight) a = a ∨
      ∃ n ∈ l, l.foldl (fun acc m => min acc m.weight) a = n.weight := by
  induction l generalizing a with
  | nil => exact Or.inl rfl
  | cons hd t ih =>
    simp only [List.foldl_cons]
    rcases ih (min a hd.weight) with h | ⟨n, hn, h⟩
    · by_cases hc : a ≤ hd.weight
      · rw [min_eq_left hc] at h ⊢
        exact Or.inl h
      · rw [min_eq_right (le_of_not_le hc)] at h ⊢
        exact Or.inr ⟨hd, List.mem_cons_self _ _, h⟩
    · exact Or.inr ⟨n, List.mem_cons_of_mem _ hn, h⟩

/-- C10: on a non-empty candidate list, the usage strategy returns a non-empty
sublist consisting of exactly the nodes whose weight equals the minimum weight
over the input (equivalently: whose weight is less than or equal to every
candidate's weight). -/
theorem usage_strategy_characterization :
    ∀ (nodes : List Node) (guild_id : Nat) (shard_count : Option Nat)
      (endpoint : Option String),
      nodes ≠ [] →
      usage_strategy nodes guild_id shard_count endpoint ≠ [] ∧
      (usage_strategy nodes guild_id shard_count endpoint).Sublist nodes ∧
      ∀ n, n ∈ usage_strategy nodes guild_id shard_count endpoint ↔
        n ∈ nodes ∧ ∀ m ∈ nodes, n.weight ≤ m.weight := by
  intro nodes gid sc ep hne
  obtain ⟨hd, t, rfl⟩ := List.exists_cons_of_ne_nil hne
  have hfold : (hd :: t).foldl lowestStep none =
      some (t.foldl (fun acc n => min acc n.weight) hd.weight) := by
    simp only [List.foldl_cons, lowestStep]
    exact foldl_lowestStep_some hd.weight t
  set L := t.foldl (fun acc n => min acc n.weight) hd.weight with hLdef
  have husage : usage_strategy (hd :: t) gid sc ep =
      (hd :: t).filter (fun node => decide (node.weight = L)) := by
    rw [usage_strategy, hfold]
  have hle : ∀ m ∈ hd :: t, L ≤ m.weight := by
    intro m hm
    rcases List.mem_cons.mp hm with h | h
    · subst h
      exact minWeightFold_le_init _ _
    · exact minWeightFold_le_mem _ _ m h
  have hatt : ∃ n0 ∈ hd :: t, n0.weight = L := by
    rcases minWeightFold_attained hd.weight t with h | ⟨n, hn, h⟩
    · exact ⟨hd, List.mem_cons_self _ _, h.symm⟩
    · exact ⟨n, List.mem_cons_of_mem _ hn, h.symm⟩
  obtain ⟨n0, hn0, hw0⟩ := hatt
  have hchar : ∀ n, n ∈ usage_strategy (hd :: t) gid sc ep ↔
      n ∈ hd :: t ∧ ∀ m ∈ hd :: t, n.weight ≤ m.weight := by
    intro n
    rw [husage, List.mem_filter]
    simp only [decide_eq_true_eq]
    constructor
    · rintro ⟨hn, hwn⟩
      exact ⟨hn, fun m hm => hwn ▸ hle m hm⟩
    · rintro ⟨hn, hmin⟩
      refine ⟨hn, le_antisymm ?_ (hle n hn)⟩
      exact hw0 ▸ hmin n0 hn0
  refine ⟨?_, ?_, hchar⟩
  · intro hcontra
    have : n0 ∈ usage_strategy (hd :: t) gid sc ep :=
      (hchar n0).mpr ⟨hn0, fun m hm => hw0 ▸ hle m hm⟩
    rw [hcontra] at this
    exact List.not_mem_nil _ this
  · rw [husage]
    exact List.filter_sublist _

/-- Node with no configuration and no stats, used as a concrete witness. -/
def nodeFresh : Node :=
  { label := "fresh", shard_ids := none, regions := none, stats := none }

/-- Witness for the usage strategy characterization at a concrete input. -/
theorem usage_strategy_characterization_witness :
    ([nodeFresh] ≠ ([] : List Node)) ∧
    (usage_strategy [nodeFresh] 0 none none ≠ [] ∧
      (usage_strategy [nodeFresh] 0 none none).Sublist [nodeFresh] ∧
      ∀ n, n ∈ usage_strategy [nodeFresh] 0 none none ↔
        n ∈ [nodeFresh] ∧ ∀ m ∈ [nodeFresh], n.weight ≤ m.weight) :=
  ⟨by simp, usage_strategy_characterization [nodeFresh] 0 none none (by simp)⟩

/-- C1: `get_node` realises the spec narrative: the configured strategy list
(default shard, location, usage) is run in order starting from the full node
list; after each strategy a singleton is returned immediately, an empty result
raises `NoNodesAvailable`, and otherwise the narrowed list feeds the next
strategy; when candidates remain after all strategies one is chosen uniformly
at random (abstracted by the oracle `choose`, which receives exactly the final
candidate set). -/
theorem get_node_eq_spec :
    (∀ (choose : List Node → Node) (strategies : List StrategyItem)
      (nodes : List Node) (guild_id : Nat) (shard_count : Option Nat)
      (endpoint : Option String),
      get_node choose strategies nodes guild_id shard_count endpoint =
        get_node_spec choose strategies nodes guild_id shard_count endpoint) ∧
    default_strategies =
      [Sum.inl Strategy.shard, Sum.inl Strategy.location, Sum.inl Strategy.usage] := by
  refine ⟨?_, rfl⟩
  intro choose strategies
  induction strategies with
  | nil => intro nodes gid sc ep; rfl
  | cons item rest ih =>
    intro nodes gid sc ep
    rw [get_node, get_node_spec]
    cases h : applyStrategyItem choose item nodes gid sc ep with
    | nil => simp
    | cons a t =>
      cases t with
      | nil => simp
      | cons b t2 => simpa using ih (a :: b :: t2) gid sc ep

/-- Modelled from the spec (section 4.4): the cpu term of the weight. -/
noncomputable def cpu_term (stats : NodeStats) : ℝ :=
  (1.05 : ℝ) ^ ((100 : ℝ) * ((stats.cpu.system_load : ℝ) / (stats.cpu.cores : ℝ))) * 10 - 10

/-- Modelled from the spec (section 4.4): the nulled-frame term, zero when
frame stats are absent. -/
noncomputable def null_frame_term (stats : NodeStats) : ℝ :=
  match stats.frame_stats with
  | none => 0
  | some fs => (1.03 : ℝ) ^ ((fs.nulled : ℝ) / 6) * 600 - 600

/-- Modelled from the spec (section 4.4): the deficit-frame term, zero when
frame stats are absent. -/
noncomputable def deficit_term (stats : NodeStats) : ℝ :=
  match stats.frame_stats with
  | none => 0
  | some fs => (1.03 : ℝ) ^ ((fs.deficit : ℝ) / 6) * 600 - 600

/-- Modelled from the spec (section 4.4): the memory term. -/
noncomputable def memory_term (stats : NodeStats) : ℝ :=
  max ((10 : ℝ) ^ ((100 : ℝ) * ((stats.memory.used : ℝ) / (stats.memory.reservable : ℝ)) - 96)) 1 - 1

/-- The code's weight agrees with the spec's term-by-term formula whenever
stats are present. -/
theorem weight_eq_formula (node : Node) (stats : NodeStats)
    (h : node.stats = some stats) :
    node.weight = (stats.playing_player_count : ℝ) + cpu_term stats +
      null_frame_term stats + deficit_term stats + memory_term stats := by
  simp only [Node.weight, h, cpu_term, null_frame_term, deficit_term, memory_term]

/-- Bound on the cpu term for a load fraction of at most one. -/
theorem cpu_term_le (stats : NodeStats)
    (hl : stats.cpu.system_load ≤ stats.cpu.cores) (hc : 0 < stats.cpu.cores) :
    cpu_term stats ≤ 1310 := by
  have hcR : (0 : ℝ) < (stats.cpu.cores : ℝ) := by exact_mod_cast hc
  have hlR : (stats.cpu.system_load : ℝ) ≤ (stats.cpu.cores : ℝ) := by exact_mod_cast hl
  have hdiv : (stats.cpu.system_load : ℝ) / (stats.cpu.cores : ℝ) ≤ 1 :=
    (div_le_one hcR).mpr hlR
  have hexp : (100 : ℝ) * ((stats.cpu.system_load : ℝ) / (stats.cpu.cores : ℝ)) ≤ 100 := by
    nlinarith
  have h1 : (1.05 : ℝ) ^ ((100 : ℝ) * ((stats.cpu.system_load : ℝ) / (stats.cpu.cores : ℝ)))
      ≤ (1.05 : ℝ) ^ (100 : ℝ) :=
    Real.rpow_le_rpow_of_exponent_le (by norm_num) hexp
  have h2 : (1.05 : ℝ) ^ (100 : ℝ) ≤ 132 := by
    rw [show (100 : ℝ) = ((100 : ℕ) : ℝ) by norm_num, Real.rpow_natCast]
    norm_num
  unfold cpu_term
  nlinarith [h1, h2]

/-- Bound on a frame term for a frame count of at most 600. -/
theorem frame_term_le (q : ℚ) (h : q ≤ 600) :
    (1.03 : ℝ) ^ ((q : ℝ) / 6) * 600 - 600 ≤ 11400 := by
  have hq : (q : ℝ) ≤ 600 := by exact_mod_cast h
  have hexp : (q : ℝ) / 6 ≤ 100 := by linarith
  have h1 : (1.03 : ℝ) ^ ((q : ℝ) / 6) ≤ (1.03 : ℝ) ^ (100 : ℝ) :=
    Real.rpow_le_rpow_of_exponent_le (by norm_num) hexp
  have h2 : (1.03 : ℝ) ^ (100 : ℝ) ≤ 20 := by
    rw [show (100 : ℝ) = ((100 : ℕ) : ℝ) by norm_num, Real.rpow_natCast]
    norm_num
  nlinarith [h1, h2]

/-- Bound on the nulled-frame term. -/
theorem null_frame_term_le (stats : NodeStats)
    (hf : ∀ fs, stats.frame_stats = some fs → fs.nulled ≤ 600) :
    null_frame_term stats ≤ 11400 := by
  unfold null_frame_term
  cases h : stats.frame_stats with
  | none => norm_num
  | some fs => exact frame_term_le fs.nulled (hf fs h)

/-- Bound on the deficit-frame term. -/
theorem deficit_term_le (stats : NodeStats)
    (hf : ∀ fs, stats.frame_stats = some fs → fs.deficit ≤ 600) :
    deficit_term stats ≤ 11400 := by
  unfold deficit_term
  cases h : stats.frame_stats with
  | none => norm_num
  | some fs => exact frame_term_le fs.deficit (hf fs h)

/-- Bound on the memory term when usage does not exceed reservable memory. -/
theorem memory_term_le (stats : NodeStats)
    (hu : stats.memory.used ≤ stats.memory.reservable)
    (hr : 0 < stats.memory.reservable) :
    memory_term stats ≤ 9999 := by
  have hrR : (0 : ℝ) < (stats.memory.reservable : ℝ) := by exact_mod_cast hr
  have hdiv : (stats.memory.used : ℝ) / (stats.memory.reservable : ℝ) ≤ 1 :=
    (div_le_one hrR).mpr (by exact_mod_cast hu)
  have hexp : (100 : ℝ) * ((stats.memory.used : ℝ) / (stats.memory.reservable : ℝ)) - 96 ≤ 4 := by
    nlinarith
  have h1 : (10 : ℝ) ^ ((100 : ℝ) * ((stats.memory.used : ℝ) / (stats.memory.reservable : ℝ)) - 96)
      ≤ (10 : ℝ) ^ (4 : ℝ) :=
    Real.rpow_le_rpow_of_exponent_le (by norm_num) hexp
  have h2 : (10 : ℝ) ^ (4 : ℝ) = 10000 := by
    rw [show (4 : ℝ) = ((4 : ℕ) : ℝ) by norm_num, Real.rpow_natCast]
    norm_num
  have hmax : max ((10 : ℝ) ^ ((100 : ℝ) * ((stats.memory.used : ℝ) / (stats.memory.reservable : ℝ)) - 96)) 1 ≤ 10000 :=
    max_le (h2 ▸ h1) (by norm_num)
  unfold memory_term
  linarith

/-- C2 (amended): for every node with stats present the weight equals
`playing_player_count + cpu_term + null_frame_term + deficit_term +
memory_term` with the spec's term formulas, the two frame terms being zero
when frame stats are absent; for every node with no stats the weight is the
fixed sentinel `6.63e34`; and the sentinel is strictly greater than any weight
computed from stats in the operating range (at most `10^9` playing players,
system load at most the core count, at most 600 nulled and deficit frames, and
memory usage not exceeding reservable memory). -/
theorem weight_formula_and_sentinel :
    (∀ (node : Node) (stats : NodeStats), node.stats = some stats →
      node.weight = (stats.playing_player_count : ℝ) + cpu_term stats +
        null_frame_term stats + deficit_term stats + memory_term stats) ∧
    (∀ stats : NodeStats, stats.frame_stats = none →
      null_frame_term stats = 0 ∧ deficit_term stats = 0) ∧
    (∀ node : Node, node.stats = none → node.weight = 6.63e34) ∧
    (∀ (node : Node) (stats : NodeStats), node.stats = some stats →
      stats.playing_player_count ≤ 10 ^ 9 →
      stats.cpu.system_load ≤ stats.cpu.cores → 0 < stats.cpu.cores →
      (∀ fs, stats.frame_stats = some fs → fs.nulled ≤ 600 ∧ fs.deficit ≤ 600) →
      stats.memory.used ≤ stats.memory.reservable → 0 < stats.memory.reservable →
      node.weight < 6.63e34) := by
  refine ⟨weight_eq_formula, ?_, ?_, ?_⟩
  · intro stats h
    constructor <;> simp [null_frame_term, deficit_term, h]
  · intro node h
    simp [Node.weight, h]
  · intro node stats h hp hl hc hf hu hr
    rw [weight_eq_formula node stats h]
    have hpR : (stats.playing_player_count : ℝ) ≤ 10 ^ 9 := by exact_mod_cast hp
    have t1 := cpu_term_le stats hl hc
    have t2 := null_frame_term_le stats (fun fs hfs => (hf fs hfs).1)
    have t3 := deficit_term_le stats (fun fs hfs => (hf fs hfs).2)
    have t4 := memory_term_le stats hu hr
    have : (10 : ℝ) ^ 9 + 1310 + 11400 + 11400 + 9999 < 6.63e34 := by norm_num
    linarith

/-- Stats reporting an absurdly large playing-player count with otherwise idle
resources. -/
def hugeStats : NodeStats :=
  { player_count := 10 ^ 35, playing_player_count := 10 ^ 35, uptime := 0,
    memory := { free := 0, used := 0, allocated := 0, reservable := 1 },
    cpu := { cores := 1, system_load := 0, lavalink_load := 0 },
    frame_stats := none }

/-- Node carrying `hugeStats`. -/
def hugeNode : Node :=
  { label := "huge", shard_ids := none, regions := none, stats := some hugeStats }

/-- C2 counterexample: the sentinel weight of a stats-less node is not greater
than every weight computed from reported stats; a node reporting `10^35`
playing players has a strictly larger weight. -/
theorem sentinel_not_maximal :
    nodeFresh.stats = none ∧ Node.weight nodeFresh < Node.weight hugeNode := by
  refine ⟨rfl, ?_⟩
  have hcpu : cpu_term hugeStats = 0 := by
    have : (100 : ℝ) * (((hugeStats.cpu.system_load : ℚ) : ℝ) / ((hugeStats.cpu.cores : ℚ) : ℝ)) = 0 := by
      norm_num [hugeStats]
    rw [cpu_term, this, Real.rpow_zero]
    norm_num
  have hmem : memory_term hugeStats = 0 := by
    have hexp : (100 : ℝ) * ((hugeStats.memory.used : ℝ) / (hugeStats.memory.reservable : ℝ)) - 96 = -96 := by
      norm_num [hugeStats]
    have hle : (10 : ℝ) ^ (-96 : ℝ) ≤ 1 :=
      Real.rpow_le_one_of_one_le_of_nonpos (by norm_num) (by norm_num)
    rw [memory_term, hexp, max_eq_right hle]
    norm_num
  have hweight : Node.weight hugeNode = ((10 ^ 35 : ℚ) : ℝ) := by
    rw [weight_eq_formula hugeNode hugeStats rfl, hcpu, hmem]
    have h1 : null_frame_term hugeStats = 0 := by simp [null_frame_term, hugeStats]
    have h2 : deficit_term hugeStats = 0 := by simp [deficit_term, hugeStats]
    rw [h1, h2]
    norm_num [hugeStats]
  have hfresh : Node.weight nodeFresh = 6.63e34 := by
    simp [Node.weight, nodeFresh]
  rw [hweight, hfresh]
  push_cast
  norm_num

/-- Idle stats with a single playing player. -/
def smallStats : NodeStats :=
  { player_count := 1, playing_player_count := 1, uptime := 0,
    memory := { free := 1, used := 0, allocated := 1, reservable := 1 },
    cpu := { cores := 1, system_load := 0, lavalink_load := 0 },
    frame_stats := none }

/-- Node carrying `smallStats`. -/
def smallNode : Node :=
  { label := "small", shard_ids := none, regions := none, stats := some smallStats }

/-- Witness for the weight formula and sentinel bound at concrete stats. -/
theorem weight_formula_and_sentinel_witness :
    smallNode.stats = some smallStats ∧ Node.weight smallNode < 6.63e34 :=
  ⟨rfl,
    weight_formula_and_sentinel.2.2.2 smallNode smallStats rfl
      (by norm_num [smallStats]) (by norm_num [smallStats])
      (by norm_num [smallStats]) (fun fs hfs => nomatch hfs)
      (by norm_num [smallStats]) (by norm_num [smallStats])⟩

/-- Node configured for the oregon voice region. -/
def nodeOregon : Node :=
  { label := "oregon-node", shard_ids := none,
    regions := some [VoiceRegion.oregon], stats := none }

/-- C6 (code bug evidence): the endpoint "oregon123.discord.media" parses to
the region string "oregon", and `nodeOregon` is configured for the region
whose enum value is exactly "oregon"; yet `location_strategy` returns the
unfiltered input, because the membership test compares the captured `str`
against `VoiceRegion` enum members, which is always false in Python.  The
final conjunct shows the filter is dead code: the strategy returns its input
unchanged on every input whatsoever. -/
theorem location_strategy_never_filters :
    parseRegion "oregon123.discord.media" = some "oregon" ∧
    VoiceRegion.oregon.value = "oregon" ∧
    nodeOregon.regions = some [VoiceRegion.oregon] ∧
    location_strategy [nodeOregon, nodeFresh] 0 none
      (some "oregon123.discord.media") = [nodeOregon, nodeFresh] ∧
    (∀ (nodes : List Node) (guild_id : Nat) (shard_count : Option Nat)
      (endpoint : Option String),
      location_strategy nodes guild_id shard_count endpoint = nodes) := by
  have hdead : ∀ (nodes : List Node) (guild_id : Nat) (shard_count : Option Nat)
      (endpoint : Option String),
      location_strategy nodes guild_id shard_count endpoint = nodes := by
    intro nodes gid sc ep
    cases ep with
    | none => rfl
    | some e =>
      cases hp : parseRegion e with
      | none => simp [location_strategy, hp]
      | some vr =>
        have hpred : ∀ node : Node, (match node.regions with
            | none => false
            | some rs => rs.any (fun r => r.pyEqStr vr)) = false := by
          intro node
          cases node.regions <;> simp [VoiceRegion.pyEqStr]
        by_cases hv : vr = ""
        · simp [location_strategy, hp, hv]
        · simp [location_strategy, hp, hv, hpred]
  refine ⟨by decide, rfl, rfl, hdead _ _ _ _, hdead⟩

/-- A freshly constructed player: unbound and disconnected. -/
def disconnectedPlayer : Player := Player.init 1

/-- C7 counterexample: `remove_filter` with a label absent from the filter
map, called on a player with no bound node and connectivity false, raises
`KeyError` rather than `PlayerNotConnected`, because `dict.pop` runs before
the connectivity check. -/
theorem remove_filter_raises_keyerror :
    (disconnectedPlayer.node = none ∧ disconnectedPlayer.connected = false) ∧
    disconnectedPlayer.remove_filter "flanger" false =
      .error (.keyError "flanger") ∧
    PlayerError.keyError "flanger" ≠ PlayerError.playerNotConnected := by
  refine ⟨⟨rfl, rfl⟩, ?_, by simp⟩
  rfl

/-- C7 (amended): every mutating player call raises `PlayerNotConnected` when
no node is bound or the connectivity flag is false, with one exception:
`remove_filter` with a label absent from the ordered filter map raises
`KeyError` for that label instead (its map lookup precedes the connectivity
check); with the label present it raises `PlayerNotConnected` like the
rest. -/
theorem mutating_calls_require_connection :
    ∀ p : Player, (p.node = none ∨ p.connected = false) →
      (∀ args, p.update args = .error .playerNotConnected) ∧
      (∀ track st et vol rep pse,
        p.play track st et vol rep pse = .error .playerNotConnected) ∧
      (∀ b, p.pause b = .error .playerNotConnected) ∧
      (p.resume = .error .playerNotConnected) ∧
      (p.stop = .error .playerNotConnected) ∧
      (∀ pos, p.seek pos = .error .playerNotConnected) ∧
      (∀ v, p.set_volume v = .error .playerNotConnected) ∧
      (∀ f label fa, p.add_filter f label fa = .error .playerNotConnected) ∧
      (∀ fa, p.clear_filters fa = .error .playerNotConnected) ∧
      (∀ label fa, p.filters.any (fun kv => kv.1 = label) = true →
        p.remove_filter label fa = .error .playerNotConnected) ∧
      (∀ label fa, p.filters.any (fun kv => kv.1 = label) = false →
        p.remove_filter label fa = .error (.keyError label)) := by
  intro p hp
  have hcond : (p.node.isNone || !p.connected) = true := by
    rcases hp with h | h <;> simp [h]
  have hupd : ∀ args, p.update args = .error .playerNotConnected := by
    intro args
    rw [Player.update, if_pos hcond]
  have hupdAny : ∀ (q : Player), q.node = p.node → q.connected = p.connected →
      ∀ args, q.update args = .error .playerNotConnected := by
    intro q hn hc args
    rw [Player.update, if_pos (by rw [hn, hc]; exact hcond)]
  have hfilters : ∀ (q : Player), q.node = p.node → q.connected = p.connected →
      ∀ fa, q.update_filters fa = .error .playerNotConnected := by
    intro q hn hc fa
    rw [Player.update_filters, hupdAny q hn hc]
  refine ⟨hupd, ?_, ?_, ?_, ?_, ?_, ?_, ?_, ?_, ?_, ?_⟩
  · intro track st et vol rep pse
    exact hupd _
  · intro b
    exact hupd _
  · rw [Player.resume, Player.pause]
    exact hupd _
  · exact hupd _
  · intro pos
    exact hupd _
  · intro v
    exact hupd _
  · intro f label fa
    rw [Player.add_filter]
    apply hfilters
    · rfl
    · rfl
  · intro fa
    rw [Player.clear_filters]
    apply hfilters
    · rfl
    · rfl
  · intro label fa hlab
    rw [Player.remove_filter, if_pos hlab]
    apply hfilters
    · rfl
    · rfl
  · intro label fa hlab
    rw [Player.remove_filter, if_neg (by simp [hlab])]

/-- Witness for the mutating-call connectivity check at a concrete player. -/
theorem mutating_calls_require_connection_witness :
    (disconnectedPlayer.node = none ∨ disconnectedPlayer.connected = false) ∧
    disconnectedPlayer.stop = .error .playerNotConnected :=
  ⟨Or.inl rfl,
    (mutating_calls_require_connection disconnectedPlayer (Or.inl rfl)).2.2.2.2.1⟩

/-- Key membership after a dict assignment. -/
theorem mem_keys_assocSet [DecidableEq β] (m : List (β × α)) (k : β) (v : α) (x : β) :
    x ∈ (assocSet m k v).map Prod.fst ↔ x ∈ m.map Prod.fst ∨ x = k := by
  unfold assocSet
  by_cases h : m.any (fun kv => kv.1 = k)
  · rw [if_pos h]
    have hk : k ∈ m.map Prod.fst := by
      rcases List.any_eq_true.mp h with ⟨kv, hkv, he⟩
      have hke : kv.1 = k := by simpa using he
      exact hke ▸ List.mem_map_of_mem _ hkv
    have hkeys : (m.map (fun kv => if kv.1 = k then (k, v) else kv)).map Prod.fst
        = m.map Prod.fst := by
      rw [List.map_map]
      apply List.map_congr_left
      intro kv _
      by_cases hkk : kv.1 = k <;> simp [hkk]
    rw [hkeys]
    constructor
    · exact Or.inl
    · rintro (hx | rfl)
      · exact hx
      · exact hk
  · rw [if_neg h]
    simp

/-- Key membership through the dict-building fold, generalised over the
accumulator. -/
theorem mem_keys_dict_fold [DecidableEq β] (l : List (β × α)) (init : List (β × α)) (x : β) :
    x ∈ (l.foldl (fun m kv => assocSet m kv.1 kv.2) init).map Prod.fst ↔
      x ∈ init.map Prod.fst ∨ x ∈ l.map Prod.fst := by
  induction l generalizing init with
  | nil => simp
  | cons hd t ih =>
    simp only [List.foldl_cons, List.map_cons, List.mem_cons]
    rw [ih, mem_keys_assocSet]
    tauto

/-- The dict built from a pair list has the same key membership as the list. -/
theorem mem_keys_dictOfPairs [DecidableEq β] (l : List (β × α)) (x : β) :
    x ∈ (dictOfPairs l).map Prod.fst ↔ x ∈ l.map Prod.fst := by
  unfold dictOfPairs
  rw [mem_keys_dict_fold]
  simp

/-- C8 (amended): after reconciliation the local room set equals the remote
room set, provided the client has a current voice channel in every remotely
new room (rooms without one are silently skipped by `_add_unknown_player`);
the force-disconnected rooms are exactly those known locally but absent
remotely; every remotely new room with a voice channel is adopted through
`set_state`; and an adopted session carries the remote-reported current track
and active filters (the latter installed under the label "RESUME"). -/
theorem sync_players_reconciliation :
    ∀ (players : List (Nat × Player)) (remote : List (Nat × PlayerPayload))
      (voice : Nat → Option Nat),
      (∀ gid, gid ∈ remote.map Prod.fst → gid ∉ players.map Prod.fst →
        (voice gid).isSome) →
      (∀ gid, gid ∈ (sync_players players remote voice).1.map Prod.fst ↔
        gid ∈ remote.map Prod.fst) ∧
      (∀ gid, gid ∈ (sync_players players remote voice).2 ↔
        gid ∈ players.map Prod.fst ∧ gid ∉ remote.map Prod.fst) ∧
      (∀ gid payload, gid ∉ players.map Prod.fst →
        (gid, payload) ∈ dictOfPairs remote →
        ∃ ch, voice gid = some ch ∧
          (gid, (Player.init ch).set_state payload) ∈
            (sync_players players remote voice).1) ∧
      (∀ (ch : Nat) (payload : PlayerPayload),
        ((Player.init ch).set_state payload).current = payload.track ∧
        ((Player.init ch).set_state payload).filters =
          [("RESUME", payload.filters)]) := by
  intro players remote voice hv
  have hAK : ∀ gid, gid ∈ (dictOfPairs remote).map Prod.fst ↔
      gid ∈ remote.map Prod.fst :=
    fun gid => mem_keys_dictOfPairs remote gid
  have hsync : sync_players players remote voice =
      (players.filter (fun kv => kv.1 ∈ (dictOfPairs remote).map Prod.fst) ++
        ((dictOfPairs remote).filter
          (fun kv => kv.1 ∉ players.map Prod.fst)).filterMap
          (fun kv => (voice kv.1).map
            (fun ch => (kv.1, (Player.init ch).set_state kv.2))),
       (players.map Prod.fst).filter
         (fun gid => gid ∉ (dictOfPairs remote).map Prod.fst)) := rfl
  refine ⟨?_, ?_, ?_, ?_⟩
  · intro gid
    rw [hsync]
    simp only [List.map_append, List.mem_append]
    constructor
    · rintro (hk | ha)
      · rcases List.mem_map.mp hk with ⟨kv, hkv, rfl⟩
        have hin := (List.mem_filter.mp hkv).2
        exact (hAK kv.1).mp (by simpa using hin)
      · rcases List.mem_map.mp ha with ⟨kv2, hkv2, rfl⟩
        rcases List.mem_filterMap.mp hkv2 with ⟨kv, hkv, hmap⟩
        rcases Option.map_eq_some'.mp hmap with ⟨ch, _, hkv2eq⟩
        have hkvA := (List.mem_filter.mp hkv).1
        have hfst : kv2.1 = kv.1 := by rw [← hkv2eq]
        rw [hfst]
        exact (hAK kv.1).mp (List.mem_map_of_mem _ hkvA)
    · intro hr
      have hgA : gid ∈ (dictOfPairs remote).map Prod.fst := (hAK gid).mpr hr
      by_cases hpk : gid ∈ players.map Prod.fst
      · left
        rcases List.mem_map.mp hpk with ⟨kv, hkv, rfl⟩
        exact List.mem_map_of_mem _
          (List.mem_filter.mpr ⟨hkv, by simpa using hgA⟩)
      · right
        rcases List.mem_map.mp hgA with ⟨kv, hkvA, rfl⟩
        have hvs := hv kv.1 ((hAK kv.1).mp (List.mem_map_of_mem _ hkvA)) hpk
        rcases Option.isSome_iff_exists.mp hvs with ⟨ch, hch⟩
        refine List.mem_map.mpr
          ⟨(kv.1, (Player.init ch).set_state kv.2), ?_, rfl⟩
        apply List.mem_filterMap.mpr
        refine ⟨kv, List.mem_filter.mpr ⟨hkvA, by simpa using hpk⟩, ?_⟩
        rw [hch]
        rfl
  · intro gid
    rw [hsync]
    simp only [List.mem_filter, decide_not, Bool.not_eq_true', decide_eq_false_iff_not]
    rw [hAK gid]
  · intro gid payload hnp hmem
    have hgr : gid ∈ remote.map Prod.fst :=
      (hAK gid).mp (List.mem_map_of_mem _ hmem)
    rcases Option.isSome_iff_exists.mp (hv gid hgr hnp) with ⟨ch, hch⟩
    refine ⟨ch, hch, ?_⟩
    rw [hsync]
    apply List.mem_append.mpr
    right
    apply List.mem_filterMap.mpr
    refine ⟨(gid, payload), List.mem_filter.mpr ⟨hmem, by simpa using hnp⟩, ?_⟩
    rw [hch]
    rfl
  · intro ch payload
    exact ⟨rfl, rfl⟩

/-- A concrete remote player payload. -/
def payloadBasic : PlayerPayload :=
  { track := some { id := "trk", position := 5 }, filters := filterVolOne,
    paused := false,
    voice := { session_id := "sess", endpoint := some "ep", token := "tok",
               ping := 1 } }

/-- C8 counterexample: a room (guild 3) reported by the server but unknown
locally is NOT adopted when the client has no voice channel there
(`_add_unknown_player` returns early), so the local map after reconciliation
does not contain every remote room. -/
theorem sync_players_voiceless_room_not_adopted :
    (sync_players [] [(3, payloadBasic)] (fun _ => none)).1 = [] ∧
    3 ∈ ([(3, payloadBasic)].map Prod.fst) := by
  constructor
  · rfl
  · simp

/-- Local players for the reconciliation witness, sessions 1 and 2. -/
def demoPlayers : List (Nat × Player) := [(1, Player.init 11), (2, Player.init 12)]

/-- Remote payloads for the reconciliation witness, sessions 2 and 3. -/
def demoRemote : List (Nat × PlayerPayload) := [(2, payloadBasic), (3, payloadBasic)]

/-- Witness for the reconciliation theorem on the spec's worked example: local
rooms 1 and 2 against remote rooms 2 and 3. -/
theorem sync_players_reconciliation_witness :
    (∀ gid, gid ∈ demoRemote.map Prod.fst → gid ∉ demoPlayers.map Prod.fst →
      ((fun _ => some 7) gid : Option Nat).isSome) ∧
    (∀ gid, gid ∈ (sync_players demoPlayers demoRemote (fun _ => some 7)).1.map Prod.fst ↔
      gid ∈ demoRemote.map Prod.fst) :=
  ⟨fun _ _ _ => rfl,
    (sync_players_reconciliation demoPlayers demoRemote (fun _ => some 7)
      (fun _ _ _ => rfl)).1⟩

end Mafic
